import Mathlib

/-!
Verification of the dspy-as-a-service job scheduler and job store.

Shallow embedding of the durable job store (src/core/storage/local.py),
the background worker pool (src/core/worker/engine.py) and the relevant
HTTP-surface logic (src/core/api/app.py, src/core/api/converters.py).
Timestamps are modelled as naturals (only their ordering matters), JSON
numbers as rationals, and Python dicts as association lists.
-/

namespace Dspy

/-- JSON-compatible metric/payload values (numbers as exact rationals). -/
inductive MetricVal where
  | num (q : ℚ)
  | str (s : String)
  | boolV (b : Bool)
  | nullV
deriving DecidableEq

/-- A JSON object / Python dict: association list from keys to values. -/
abbrev JDict := List (String × MetricVal)

/-- Python `dict` lookup: first binding of the key. -/
def dictLookup (m : JDict) (k : String) : Option MetricVal :=
  (m.find? (fun p => p.1 == k)).map (fun p => p.2)

/-- Python `old.update(new)`: existing keys keep their position but take the
new value, keys only in `new` are appended. Faithful for duplicate-free
dicts, which is what the store produces. -/
def dictUpdate (old new : JDict) : JDict :=
  old.map (fun p =>
    match dictLookup new p.1 with
    | some v => (p.1, v)
    | none => p)
  ++ new.filter (fun p => (dictLookup old p.1).isNone)

/-- ASCII upper-casing of one character (Python `str.upper()` on the
ASCII level names used by the logging module). -/
def upperChar (c : Char) : Char :=
  if c.isLower then Char.ofNat (c.toNat - 32) else c

/-- ASCII upper-casing of a string (`level.upper()`). -/
def upperStr (s : String) : String :=
  String.mk (s.data.map upperChar)

/-- A row of the `jobs` table (src/core/storage/local.py, JobModel).
`created_at`/`started_at`/`completed_at` are UTC instants modelled as Nat. -/
structure Job where
  job_id : String
  status : String
  created_at : Nat
  started_at : Option Nat := none
  completed_at : Option Nat := none
  message : Option String := none
  latest_metrics : JDict := []
  result : Option JDict := none
  payload_overview : JDict := []
  payload : Option JDict := none
deriving DecidableEq

/-- A row of the `job_progress_events` table (ProgressEventModel). -/
structure PEvent where
  jobId : String
  ts : Nat
  event : Option String
  metrics : JDict
deriving DecidableEq

/-- A row of the `job_logs` table (LogEntryModel). -/
structure LogEntry where
  jobId : String
  ts : Nat
  level : String
  logger : String
  message : String
deriving DecidableEq

/-- The three tables of the embedded store, rows in insertion order. -/
structure StoreState where
  jobs : List Job
  progress : List PEvent
  logs : List LogEntry
deriving DecidableEq

/-- src/core/storage/local.py: MAX_PROGRESS_EVENTS. -/
def MAX_PROGRESS_EVENTS : Nat := 5000

/-- src/core/storage/local.py: MAX_LOG_ENTRIES. -/
def MAX_LOG_ENTRIES : Nat := 5000

/-! ### Generic sorting by a Nat key (`ORDER BY ... ASC`) -/

/-- Insert into a list sorted by `key`, keeping earlier rows first on ties. -/
def insertLe (key : α → Nat) (a : α) : List α → List α
  | [] => [a]
  | b :: bs => if key a ≤ key b then a :: b :: bs else b :: insertLe key a bs

/-- Sort a list ascending by `key` (models `ORDER BY key ASC`). -/
def sortOn (key : α → Nat) (l : List α) : List α :=
  l.foldr (insertLe key) []

/-! ### Job store operations (src/core/storage/local.py, LocalDBJobStore) -/

/-- The kwargs accepted by `update_job` on fields relevant to the claims.
A `none` component means the keyword was not supplied. ISO-8601 strings and
native datetimes both arrive as their parsed instant (`Nat`). -/
structure JobUpdate where
  status : Option String := none
  message : Option String := none
  started_at : Option Nat := none
  completed_at : Option Nat := none
  result : Option JDict := none
  payload : Option JDict := none
  latest_metrics : Option JDict := none
deriving DecidableEq

/-- One kwargs application of `update_job` to a row: each supplied field is
set; `latest_metrics` is merged into the existing map when that map is
non-empty, otherwise replaced (local.py lines 145-154). -/
def applyUpdate (j : Job) (u : JobUpdate) : Job :=
  { j with
    status := u.status.getD j.status
    message := match u.message with
      | some m => some m
      | none => j.message
    started_at := match u.started_at with
      | some t => some t
      | none => j.started_at
    completed_at := match u.completed_at with
      | some t => some t
      | none => j.completed_at
    result := match u.result with
      | some r => some r
      | none => j.result
    payload := match u.payload with
      | some p => some p
      | none => j.payload
    latest_metrics := match u.latest_metrics with
      | some m => if j.latest_metrics.isEmpty then m else dictUpdate j.latest_metrics m
      | none => j.latest_metrics }

/-- Apply `f` to the first element satisfying `p` (`query(...).first()`
then setattr); later rows untouched, no-op when absent. -/
def updateFirst (p : α → Bool) (f : α → α) : List α → List α
  | [] => []
  | a :: as => if p a then f a :: as else a :: updateFirst p f as

/-- `update_job(job_id, **kwargs)`: partial update, no-op if the job does
not exist (local.py lines 138-157). There is no check of the current
status before applying the update. -/
def update_job (s : StoreState) (id : String) (u : JobUpdate) : StoreState :=
  { s with jobs := updateFirst (fun j => j.job_id == id) (fun j => applyUpdate j u) s.jobs }

/-- `get_job(job_id)`: the row, or `none` where the source raises KeyError. -/
def get_job (s : StoreState) (id : String) : Option Job :=
  s.jobs.find? (fun j => j.job_id == id)

/-- `job_exists(job_id)`. -/
def job_exists (s : StoreState) (id : String) : Bool :=
  (s.jobs.find? (fun j => j.job_id == id)).isSome

/-- `delete_job(job_id)`: removes the job row and all its log entries and
progress events (local.py lines 178-187). -/
def delete_job (s : StoreState) (id : String) : StoreState :=
  { jobs := s.jobs.filter (fun j => !(j.job_id == id))
    progress := s.progress.filter (fun e => !(e.jobId == id))
    logs := s.logs.filter (fun e => !(e.jobId == id)) }

/-- A job is an orphan when its stored status is running or validating. -/
def isOrphan (j : Job) : Bool :=
  j.status == "running" || j.status == "validating"

/-- `recover_orphaned_jobs()`: rewrite every running/validating row to
failed with the restart message and `completed_at = now`; return the count
(local.py lines 189-209). -/
def recover_orphaned_jobs (s : StoreState) (now : Nat) : StoreState × Nat :=
  ({ s with jobs := s.jobs.map (fun j =>
      if isOrphan j then
        { j with status := "failed"
                 message := some "Job interrupted by service restart"
                 completed_at := some now }
      else j) },
   (s.jobs.filter isOrphan).length)

/-- `set_payload_overview(job_id, overview)`: wholesale replacement. -/
def set_payload_overview (s : StoreState) (id : String) (ov : JDict) : StoreState :=
  { s with jobs :=
      (updateFirst (fun j => j.job_id == id)
        (fun j => { j with payload_overview := ov }) s.jobs) }

/-- Rows of `job_progress_events` belonging to a job, in table order. -/
def eventRowsFor (s : StoreState) (id : String) : List PEvent :=
  s.progress.filter (fun e => e.jobId == id)

/-- Minimum of a list of naturals. -/
def minTs : List Nat → Option Nat
  | [] => none
  | t :: ts =>
    match minTs ts with
    | none => some t
    | some m => some (min t m)

/-- Delete the oldest progress event of a job: the row found by
`ORDER BY timestamp ASC ... first()` (local.py lines 240-248). -/
def removeOldestEvent (l : List PEvent) (id : String) : List PEvent :=
  match minTs ((l.filter (fun e => e.jobId == id)).map (fun e => e.ts)) with
  | none => l
  | some m => l.eraseP (fun e => e.jobId == id && e.ts == m)

/-- The in-row merge done by `record_progress` on the job being reported:
metrics merged when non-empty, message set when truthy (non-empty). -/
def applyProgressToJob (j : Job) (msg : Option String) (mx : JDict) : Job :=
  { j with
    latest_metrics := if mx.isEmpty then j.latest_metrics else dictUpdate j.latest_metrics mx
    message := match msg with
      | some m => if m.isEmpty then j.message else some m
      | none => j.message }

/-- `record_progress(job_id, message, metrics)` at instant `now`: insert the
event, merge metrics/message into the job row, then count the job's events
and delete the oldest when the count exceeds `MAX_PROGRESS_EVENTS`, all in
one transaction (local.py lines 222-252). -/
def record_progress (s : StoreState) (id : String) (msg : Option String)
    (mx : JDict) (now : Nat) : StoreState :=
  let progress1 := s.progress ++ [⟨id, now, msg, mx⟩]
  let jobs1 := updateFirst (fun j => j.job_id == id)
    (fun j => applyProgressToJob j msg mx) s.jobs
  let cnt := (progress1.filter (fun e => e.jobId == id)).length
  { jobs := jobs1
    progress := if MAX_PROGRESS_EVENTS < cnt then removeOldestEvent progress1 id else progress1
    logs := s.logs }

/-- `get_progress_events(job_id)`: the job's events ordered by timestamp
ascending. -/
def get_progress_events (s : StoreState) (id : String) : List PEvent :=
  sortOn (fun e => e.ts) (s.progress.filter (fun e => e.jobId == id))

/-- `get_progress_count(job_id)`. -/
def get_progress_count (s : StoreState) (id : String) : Nat :=
  (s.progress.filter (fun e => e.jobId == id)).length

/-- Rows of `job_logs` belonging to a job, in table order. -/
def logRowsFor (s : StoreState) (id : String) : List LogEntry :=
  s.logs.filter (fun e => e.jobId == id)

/-- `append_log(job_id, level, logger_name, message, timestamp)`: insert,
then delete the oldest entry when the count exceeds `MAX_LOG_ENTRIES`
(local.py lines 279-300). -/
def append_log (s : StoreState) (id : String) (level loggerName message : String)
    (ts : Nat) : StoreState :=
  let logs1 := s.logs ++ [⟨id, ts, level, loggerName, message⟩]
  let cnt := (logs1.filter (fun e => e.jobId == id)).length
  let logs2 :=
    if MAX_LOG_ENTRIES < cnt then
      match minTs ((logs1.filter (fun e => e.jobId == id)).map (fun e => e.ts)) with
      | none => logs1
      | some m => logs1.eraseP (fun e => e.jobId == id && e.ts == m)
    else logs1
  { s with logs := logs2 }

/-- `get_logs(job_id)` as implemented in local.py lines 302-317: ALL of the
job's log entries ordered by timestamp ascending. The source function
accepts no `limit`, `offset` or `level` argument. -/
def get_logs (s : StoreState) (id : String) : List LogEntry :=
  sortOn (fun e => e.ts) (s.logs.filter (fun e => e.jobId == id))

/-- `get_log_count(job_id)` as implemented in local.py lines 319-325:
total count, no level filter argument. -/
def get_log_count (s : StoreState) (id : String) : Nat :=
  (s.logs.filter (fun e => e.jobId == id)).length

/-! ### Worker pool scheduler state (src/core/worker/engine.py, BackgroundWorker)

`_pending_jobs` is a Python list, `_processing_jobs` a set, and
`_cancel_events` a dict from job id to a `threading.Event`; an Event is
modelled by the Bool it is set to (`some b` = an Event exists and
`is_set() = b`, `none` = no entry). All operations below run under
`_queue_lock` in the source. -/

namespace Worker

structure WorkerState where
  running : Bool
  pending : List String
  processing : Finset String
  cancel : String → Option Bool

/-- `enqueue_job(job_id)` (engine.py lines 212-224): unconditionally
install a fresh (unset) cancel Event for the id, then append the id to the
pending list when it is in neither the pending list nor the processing
set. -/
def enqueue_job (w : WorkerState) (id : String) : WorkerState :=
  let cancel1 : String → Option Bool := fun k => if k = id then some false else w.cancel k
  if id ∈ w.pending ∨ id ∈ w.processing then
    { w with cancel := cancel1 }
  else
    { w with cancel := cancel1, pending := w.pending ++ [id] }

/-- `submit_job(job_id, payload)` (engine.py lines 226-237): write the
payload onto the job row via `update_job`, then `enqueue_job`. -/
def submit_job (s : StoreState) (w : WorkerState) (id : String) (payload : JDict) :
    StoreState × WorkerState :=
  (update_job s id { payload := some payload }, enqueue_job w id)

/-- `_get_next_job()` (engine.py lines 239-250): pop the front of the
pending list and move the id into the processing set. -/
def get_next_job (w : WorkerState) : Option String × WorkerState :=
  match w.pending with
  | [] => (none, w)
  | id :: rest => (some id, { w with pending := rest, processing := insert id w.processing })

/-- `_mark_job_done(job_id)` (engine.py lines 252-260): drop the id from
the processing set and discard its cancel Event. -/
def mark_job_done (w : WorkerState) (id : String) : WorkerState :=
  { w with processing := w.processing.erase id
           cancel := fun k => if k = id then none else w.cancel k }

/-- `cancel_job(job_id)` (engine.py lines 622-640): set the Event if one
exists; if the id is still pending, remove it from the queue and discard
the Event, returning true; otherwise return whether an Event existed. -/
def cancel_job (w : WorkerState) (id : String) : Bool × WorkerState :=
  let cancel1 : String → Option Bool :=
    fun k => if k = id then (w.cancel k).map (fun _ => true) else w.cancel k
  if id ∈ w.pending then
    (true, { w with pending := w.pending.erase id
                    cancel := fun k => if k = id then none else cancel1 k })
  else
    ((w.cancel id).isSome, { w with cancel := cancel1 })

/-- `stop(timeout)` scheduler effect (engine.py lines 482-507): stop the
loop flag, clear the pending list and set every cancel Event. -/
def stopWorker (w : WorkerState) : WorkerState :=
  { running := false
    pending := []
    processing := w.processing
    cancel := fun k => (w.cancel k).map (fun _ => true) }

/-- A `BackgroundWorker` as freshly constructed (engine.py lines 151-180):
empty queue, empty processing set, no cancel events. -/
def freshWorker : WorkerState :=
  { running := true, pending := [], processing := ∅, cancel := fun _ => none }

/-- `get_worker(job_store, service, pending_job_ids)` on a fresh pool
(engine.py lines 688-704): construct, start, then `enqueue_job` each
recovered pending id in order. -/
def getWorkerFresh (ids : List String) : WorkerState :=
  ids.foldl enqueue_job freshWorker

/-- The `is_cancelled` branch of `_process_job`'s exception handler
(engine.py lines 431-452): a job whose cancellation the worker observed
during processing is deleted from the store outright (comment in source:
"Cancelled jobs are cleaned up entirely"). No `status=cancelled` row is
written by the worker. -/
def on_cancel_observed (s : StoreState) (id : String) : StoreState :=
  delete_job s id

/-- The not-cancelled branch of `_process_job`'s exception handler
(engine.py lines 453-459): failed jobs are retained with a terminal
update. -/
def on_job_failure (s : StoreState) (id : String) (errorMessage : String)
    (now : Nat) : StoreState :=
  update_job s id { status := some "failed", message := some errorMessage,
                    completed_at := some now }

end Worker

/-! ### HTTP control surface (src/core/api/app.py, src/core/api/converters.py) -/

namespace Api

/-- The persisted status strings of the `JobStatus` enum (models.py). -/
def jobStatusValues : List String :=
  ["pending", "validating", "running", "success", "failed", "cancelled"]

/-- `status_to_job_status` (converters.py): unknown strings fall back to
pending. -/
def status_to_job_status (st : String) : String :=
  if st ∈ jobStatusValues then st else "pending"

/-- `_TERMINAL_STATUSES` membership (app.py line 75). -/
def isTerminal (st : String) : Bool :=
  st == "success" || st == "failed" || st == "cancelled"

/-- Two-digit-padded decimal (Python `f"{n:02d}"` for non-negative n). -/
def pad2 (n : Nat) : String :=
  if n < 10 then "0" ++ toString n else toString n

/-- `_seconds_to_hhmmss(seconds)` (converters.py lines 68-81): truncate to
an integer second count and format as HH:MM:SS. Only reached for
non-negative input, where `int()` truncation is the floor. -/
def seconds_to_hhmmss (seconds : ℚ) : String :=
  let total : Nat := (Rat.floor seconds).toNat
  pad2 (total / 3600) ++ ":" ++ pad2 (total % 3600 / 60) ++ ":" ++ pad2 (total % 60)

/-- `extract_estimated_remaining(job_data)` (converters.py lines 149-162):
read `latest_metrics["tqdm_remaining"]`; when it is a non-negative number
format it as HH:MM:SS, otherwise return null. (Python `isinstance(val,
(int, float))` also admits booleans, which count as 1/0.) -/
def extract_estimated_remaining (latest_metrics : JDict) : Option String :=
  match dictLookup latest_metrics "tqdm_remaining" with
  | some (MetricVal.num v) => if 0 ≤ v then some (seconds_to_hhmmss v) else none
  | some (MetricVal.boolV b) => some (seconds_to_hhmmss (if b then 1 else 0))
  | _ => none

/-- The `estimated_remaining` field of job responses (app.py lines 406-409
and 562-565): null for terminal jobs, otherwise the extraction above. -/
def estimated_remaining_field (status : String) (latest_metrics : JDict) : Option String :=
  if isTerminal (status_to_job_status status) then none
  else extract_estimated_remaining latest_metrics

/-- `POST /jobs/{id}/cancel` (app.py lines 774-805): 404 when the job is
unknown, 409 when already terminal; otherwise signal the worker pool and
synchronously write `status=cancelled`, `message="Cancelled by user"`,
`completed_at=now`. -/
def cancel_endpoint (s : StoreState) (w : Worker.WorkerState) (id : String)
    (now : Nat) : Except Nat (StoreState × Worker.WorkerState) :=
  match get_job s id with
  | none => Except.error 404
  | some j =>
    if isTerminal (status_to_job_status j.status) then Except.error 409
    else
      Except.ok
        (update_job s id { status := some "cancelled",
                           message := some "Cancelled by user",
                           completed_at := some now },
         (Worker.cancel_job w id).2)

/-- The keys of `RunRequest.model_dump(mode="json")` as stored by
`submit_job` (engine.py lines 226-237): pydantic dumps by FIELD NAME when
`by_alias` is not requested, so the aliased blocks appear under their
internal names `model_settings` / `reflection_model_settings` /
`prompt_model_settings` / `task_model_settings` (models.py lines 96-134),
not under the wire aliases `model_config` etc. -/
def runRequestDumpKeys : List String :=
  ["username", "module_name", "module_kwargs", "signature_code", "metric_code",
   "optimizer_name", "optimizer_kwargs", "compile_kwargs", "dataset",
   "column_mapping", "split_fractions", "shuffle", "seed",
   "model_settings", "reflection_model_settings",
   "prompt_model_settings", "task_model_settings"]

/-- Whether a submitted JSON object can populate the required primary
model block of `RunRequest`: the alias `model_config` is accepted, and —
because `_OptimizationRequestBase` sets `populate_by_name=True`
(models.py line 99) — so is the internal field name `model_settings`. -/
def runRequestModelKeyAccepted (keys : List String) : Bool :=
  keys.contains "model_config" || keys.contains "model_settings"

end Api

/-! ### Spec-modelled store operations

The `JobStore` Protocol (src/core/storage/base.py) declares
`recover_pending_jobs()`, `count_jobs(...)` and the filtered form of
`get_logs`/`get_log_count`, and src/core/api/app.py calls them, but no
backend under src/ implements them. The definitions below follow the
specification text for those operations. -/

namespace SpecModel

/-- Modelled from the spec: `recover_pending_jobs()` — "return the list of
`pending` job ids, oldest first" — declared in storage/base.py and called
in app.py's lifespan, but implemented by no backend under src/. -/
def recover_pending_jobs (s : StoreState) : List String :=
  ((sortOn (fun j => j.created_at) s.jobs).filter (fun j => j.status == "pending")).map
    (fun j => j.job_id)

/-- Modelled from the spec: `get_logs(job_id, limit=None, offset=0,
level=None)` — "chronologically ordered, filtered by level
(case-insensitive match), paginated; offset past the end returns empty;
limit=None returns all" — declared in storage/base.py with this signature
and called so by app.py's `get_job_logs`, but `LocalDBJobStore.get_logs`
accepts no such arguments. -/
def get_logs_spec (s : StoreState) (id : String) (limit : Option Nat)
    (offset : Nat) (level : Option String) : List LogEntry :=
  let base := sortOn (fun e => e.ts) (s.logs.filter (fun e => e.jobId == id))
  let filtered :=
    match level with
    | none => base
    | some L => base.filter (fun e => upperStr e.level == upperStr L)
  let page := filtered.drop offset
  match limit with
  | none => page
  | some n => page.take n

/-- Modelled from the spec: `get_log_count(job_id, level=None)` — "count
with same filter semantics" — declared in storage/base.py, absent from the
backends under src/. -/
def get_log_count_spec (s : StoreState) (id : String) (level : Option String) : Nat :=
  let base := s.logs.filter (fun e => e.jobId == id)
  match level with
  | none => base.length
  | some L => (base.filter (fun e => upperStr e.level == upperStr L)).length

end SpecModel

/-- A sequence of `record_progress` calls, applied in order: each call is
(job id, message, metrics, timestamp). -/
def applyProgressCalls (s : StoreState)
    (calls : List (String × Option String × JDict × Nat)) : StoreState :=
  calls.foldl (fun t c => record_progress t c.1 c.2.1 c.2.2.1 c.2.2.2) s

/-! ### Concrete states used to instantiate the theorems -/

/-- A terminal (successful) job row. -/
def exSuccessJob : Job :=
  { job_id := "job-success", status := "success", created_at := 0,
    started_at := some 1, completed_at := some 5,
    message := some "Optimization completed successfully",
    result := some [("metric_name", MetricVal.str "metric")] }

/-- A running job row with a stored payload. -/
def exRunningJob : Job :=
  { job_id := "job-running", status := "running", created_at := 2,
    started_at := some 3,
    message := some "Running optimization",
    payload := some [("username", MetricVal.str "alice")] }

/-- A pending job row. -/
def exPendingJob : Job :=
  { job_id := "job-pending", status := "pending", created_at := 7 }

/-- An older pending job row. -/
def exOldPendingJob : Job :=
  { job_id := "job-old-pending", status := "pending", created_at := 1 }

/-- A store holding the three jobs above plus telemetry for the running
job. -/
def exStore : StoreState :=
  { jobs := [exSuccessJob, exRunningJob, exPendingJob, exOldPendingJob]
    progress := [⟨"job-running", 4, some "optimizer_progress", [("tqdm_remaining", MetricVal.num 75)]⟩]
    logs := [⟨"job-running", 4, "INFO", "dspy", "step"⟩,
             ⟨"job-running", 5, "ERROR", "dspy", "API call failed"⟩] }

/-- A worker state processing `job-running` whose cancel flag is set. -/
def exWorkerProcessing : Worker.WorkerState :=
  { running := true, pending := [], processing := {"job-running"},
    cancel := fun k => if k = "job-running" then some true else none }

/-- A worker state with one pending job whose cancel flag exists unset. -/
def exWorkerPending : Worker.WorkerState :=
  { running := true, pending := ["job-pending"], processing := ∅,
    cancel := fun k => if k = "job-pending" then some false else none }

/-- The scheduler-state invariant of claim C10: the pending list holds no
duplicate ids and no id is both pending and processing. -/
def SchedInv (w : Worker.WorkerState) : Prop :=
  w.pending.Nodup ∧ ∀ id ∈ w.pending, id ∉ w.processing

/-- A store holding `MAX_PROGRESS_EVENTS` progress events for one job. -/
def exFullStore : StoreState :=
  { jobs := [{ job_id := "job-full", status := "running", created_at := 0 }]
    progress := (List.range MAX_PROGRESS_EVENTS).map (fun i => ⟨"job-full", i, none, []⟩)
    logs := [] }

/-! ## Helper lemmas -/

theorem insertLe_perm (key : α → Nat) (a : α) :
    ∀ l : List α, (insertLe key a l).Perm (a :: l) := by
  intro l
  induction l with
  | nil => simp [insertLe]
  | cons b bs ih =>
    simp only [insertLe]
    by_cases h : key a ≤ key b
    · simp [h]
    · simp only [h, if_false]
      exact (List.Perm.cons b ih).trans (List.Perm.swap a b bs)

theorem sortOn_perm (key : α → Nat) : ∀ l : List α, (sortOn key l).Perm l := by
  intro l
  induction l with
  | nil => simp [sortOn]
  | cons a as ih =>
    simp only [sortOn, List.foldr]
    exact ((insertLe_perm key a _).trans (List.Perm.cons a ih))

theorem mem_sortOn (key : α → Nat) (l : List α) (x : α) :
    x ∈ sortOn key l ↔ x ∈ l :=
  (sortOn_perm key l).mem_iff

theorem sorted_insertLe (key : α → Nat) (a : α) (l : List α)
    (h : l.Pairwise (fun x y => key x ≤ key y)) :
    (insertLe key a l).Pairwise (fun x y => key x ≤ key y) := by
  induction l with
  | nil => simp [insertLe]
  | cons b bs ih =>
    simp only [insertLe]
    by_cases hab : key a ≤ key b
    · simp only [hab, if_true]
      refine List.Pairwise.cons ?_ h
      intro x hx
      rcases List.mem_cons.mp hx with hx | hx
      · subst hx
        exact hab
      · rcases List.pairwise_cons.mp h with ⟨hb, _⟩
        exact hab.trans (hb x hx)
    · simp only [hab, if_false]
      rcases List.pairwise_cons.mp h with ⟨hb, hbs⟩
      refine List.Pairwise.cons ?_ (ih hbs)
      intro x hx
      have hmem := (insertLe_perm key a bs).mem_iff.mp hx
      rcases List.mem_cons.mp hmem with hx2 | hx2
      · subst hx2
        exact le_of_not_le hab
      · exact hb x hx2

theorem sortOn_sorted (key : α → Nat) :
    ∀ l : List α, (sortOn key l).Pairwise (fun x y => key x ≤ key y) := by
  intro l
  induction l with
  | nil => simp [sortOn]
  | cons a as ih => exact sorted_insertLe key a _ ih

theorem applyUpdate_job_id (j : Job) (u : JobUpdate) :
    (applyUpdate j u).job_id = j.job_id := rfl

theorem find?_updateFirst (p : α → Bool) (f : α → α)
    (hp : ∀ a, p a = true → p (f a) = true) :
    ∀ l : List α, (updateFirst p f l).find? p = (l.find? p).map f := by
  intro l
  induction l with
  | nil => rfl
  | cons a as ih =>
    simp only [updateFirst]
    by_cases h : p a
    · simp [h, List.find?_cons, hp a h]
    · have h' : p a = false := Bool.eq_false_iff.mpr h
      simp [List.find?_cons, h', ih]

theorem find?_map_pres (g : α → α) (p : α → Bool)
    (hp : ∀ a, p (g a) = p a) :
    ∀ l : List α, (l.map g).find? p = (l.find? p).map g := by
  intro l
  induction l with
  | nil => rfl
  | cons a as ih =>
    simp only [List.map_cons, List.find?_cons, hp a]
    by_cases h : p a
    · simp [h]
    · have h' : p a = false := Bool.eq_false_iff.mpr h
      simp [h', ih]

theorem get_job_update_job (s : StoreState) (id : String) (u : JobUpdate) :
    get_job (update_job s id u) id = (get_job s id).map (fun j => applyUpdate j u) := by
  simp only [get_job, update_job]
  exact find?_updateFirst _ _ (fun a ha => by
    simpa [applyUpdate_job_id] using ha) s.jobs

/-- For the six enum strings and any string, terminal-ness is unchanged by
the pending fallback of `status_to_job_status`. -/
theorem isTerminal_status_to_job_status (st : String) :
    Api.isTerminal (Api.status_to_job_status st) = Api.isTerminal st := by
  unfold Api.status_to_job_status
  by_cases h : st ∈ Api.jobStatusValues
  · simp [h]
  · simp only [h, if_false]
    have h1 : st ≠ "success" := by
      intro e; exact h (by rw [e]; simp [Api.jobStatusValues])
    have h2 : st ≠ "failed" := by
      intro e; exact h (by rw [e]; simp [Api.jobStatusValues])
    have h3 : st ≠ "cancelled" := by
      intro e; exact h (by rw [e]; simp [Api.jobStatusValues])
    simp [Api.isTerminal, h1, h2, h3]

theorem find?_filter_of_imp (p q : α → Bool) (h : ∀ a, p a = true → q a = true) :
    ∀ l : List α, (l.filter q).find? p = l.find? p := by
  intro l
  induction l with
  | nil => rfl
  | cons a as ih =>
    by_cases hq : q a
    · simp only [List.filter_cons, hq, if_true, List.find?_cons]
      by_cases hp : p a
      · simp [hp]
      · have hp' : p a = false := Bool.eq_false_iff.mpr hp
        simp [hp', ih]
    · have hq' : q a = false := Bool.eq_false_iff.mpr hq
      have hp' : p a = false := by
        by_cases hp : p a
        · exact absurd (h a hp) hq
        · exact Bool.eq_false_iff.mpr hp
      simp [List.filter_cons, hq', List.find?_cons, hp', ih]

theorem filter_filter_contra (p : α → Bool) :
    ∀ l : List α, (l.filter (fun a => !(p a))).filter p = [] := by
  intro l
  refine List.filter_eq_nil_iff.mpr ?_
  intro a ha
  have := List.of_mem_filter ha
  simp at this
  simp [this]

theorem minTs_eq_none : ∀ l : List Nat, minTs l = none ↔ l = [] := by
  intro l
  cases l with
  | nil => simp [minTs]
  | cons t ts =>
    simp only [minTs]
    cases h : minTs ts <;> simp

theorem minTs_mem : ∀ (l : List Nat) (m : Nat), minTs l = some m → m ∈ l := by
  intro l
  induction l with
  | nil => intro m h; simp [minTs] at h
  | cons t ts ih =>
    intro m h
    simp only [minTs] at h
    cases h2 : minTs ts with
    | none =>
      rw [h2] at h
      simp at h
      simp [h]
    | some m2 =>
      rw [h2] at h
      simp at h
      rw [Nat.min_def] at h
      by_cases hle : t ≤ m2
      · simp only [hle, if_true] at h
        simp [h]
      · simp only [hle, if_false] at h
        exact List.mem_cons_of_mem t (h ▸ ih m2 h2)

theorem minTs_le : ∀ (l : List Nat) (m : Nat), minTs l = some m →
    ∀ x ∈ l, m ≤ x := by
  intro l
  induction l with
  | nil => intro m h; simp [minTs] at h
  | cons t ts ih =>
    intro m h x hx
    simp only [minTs] at h
    cases h2 : minTs ts with
    | none =>
      rw [h2] at h
      simp at h
      rcases List.mem_cons.mp hx with rfl | hx2
      · exact le_of_eq h.symm
      · exact absurd ((minTs_eq_none ts).mp h2 ▸ hx2) (List.not_mem_nil x)
    | some m2 =>
      rw [h2] at h
      simp at h
      rcases List.mem_cons.mp hx with rfl | hx2
      · exact h ▸ Nat.min_le_left _ m2
      · exact le_trans (h ▸ Nat.min_le_right _ m2) (ih m2 h2 x hx2)

theorem filter_eraseP_comm (p q : α → Bool) (h : ∀ a, p a = true → q a = true) :
    ∀ l : List α, (l.eraseP p).filter q = (l.filter q).eraseP p := by
  intro l
  induction l with
  | nil => rfl
  | cons a as ih =>
    by_cases hp : p a
    · rw [List.eraseP_cons_of_pos hp]
      rw [List.filter_cons, if_pos (by rw [h a hp])]
      rw [List.eraseP_cons_of_pos hp]
    · have hp' : ¬ p a = true := hp
      rw [List.eraseP_cons_of_neg hp']
      by_cases hq : q a
      · rw [List.filter_cons, if_pos (by rw [hq]), List.filter_cons, if_pos (by rw [hq])]
        rw [List.eraseP_cons_of_neg hp', ih]
      · have hq' : q a = false := Bool.eq_false_iff.mpr hq
        rw [List.filter_cons, if_neg (by rw [hq']; exact Bool.false_ne_true),
          List.filter_cons, if_neg (by rw [hq']; exact Bool.false_ne_true), ih]

theorem filter_eraseP_of_disjoint (p q : α → Bool) (h : ∀ a, p a = true → q a = false) :
    ∀ l : List α, (l.eraseP p).filter q = l.filter q := by
  intro l
  induction l with
  | nil => rfl
  | cons a as ih =>
    by_cases hp : p a
    · rw [List.eraseP_cons_of_pos hp]
      rw [List.filter_cons, if_neg (by rw [h a hp]; exact Bool.false_ne_true)]
    · rw [List.eraseP_cons_of_neg hp]
      by_cases hq : q a
      · rw [List.filter_cons, if_pos (by rw [hq]), List.filter_cons, if_pos (by rw [hq]), ih]
      · have hq' : q a = false := Bool.eq_false_iff.mpr hq
        rw [List.filter_cons, if_neg (by rw [hq']; exact Bool.false_ne_true),
          List.filter_cons, if_neg (by rw [hq']; exact Bool.false_ne_true), ih]

/-! ## Claim theorems -/

/-- C1 counterexample: a running job with a stored payload, one progress
event and logs; when the worker observes its cancellation during
processing, the job row and all its telemetry are gone from the store —
the claim that the row stays retrievable with status `cancelled` fails at
this input. -/
theorem c1_counterexample :
    job_exists exStore "job-running" = true ∧
    (get_job exStore "job-running").map Job.payload =
      some (some [("username", MetricVal.str "alice")]) ∧
    get_progress_count exStore "job-running" = 1 ∧
    job_exists (Worker.on_cancel_observed exStore "job-running") "job-running" = false ∧
    get_job (Worker.on_cancel_observed exStore "job-running") "job-running" = none ∧
    get_progress_events (Worker.on_cancel_observed exStore "job-running") "job-running" = [] ∧
    get_logs (Worker.on_cancel_observed exStore "job-running") "job-running" = [] := by
  decide

/-- C1 (amended): cancellation observed by the worker during processing
DELETES the job — row, payload, progress events and logs — from the store
(other jobs are untouched); the `status=cancelled`,
`message="Cancelled by user"`, `completed_at=now` write is performed
synchronously by the cancel endpoint before the worker's delete, so only
jobs the worker never picks up keep a cancelled row. -/
theorem c1_cancel_observed_deletes_job (s : StoreState) (w : Worker.WorkerState)
    (id : String) (now : Nat) (j : Job) (h : get_job s id = some j)
    (hterm : Api.isTerminal j.status = false) :
    (∃ s2 w2, Api.cancel_endpoint s w id now = Except.ok (s2, w2) ∧
       get_job s2 id = some { j with status := "cancelled",
                                     message := some "Cancelled by user",
                                     completed_at := some now }) ∧
    (∀ (t : StoreState) (i : String),
       job_exists (Worker.on_cancel_observed t i) i = false ∧
       get_progress_events (Worker.on_cancel_observed t i) i = [] ∧
       get_logs (Worker.on_cancel_observed t i) i = [] ∧
       (∀ k, k ≠ i → get_job (Worker.on_cancel_observed t i) k = get_job t k)) := by
  constructor
  · refine ⟨update_job s id { status := some "cancelled", message := some "Cancelled by user", completed_at := some now }, (Worker.cancel_job w id).2, ?_, ?_⟩
    · simp only [Api.cancel_endpoint, h, isTerminal_status_to_job_status, hterm]
      rfl
    · rw [get_job_update_job, h]
      rfl
  · intro t i
    refine ⟨?_, ?_, ?_, ?_⟩
    · simp only [job_exists, Worker.on_cancel_observed, delete_job]
      have hnone : List.find? (fun j => j.job_id == i)
          (List.filter (fun j => !(j.job_id == i)) t.jobs) = none := by
        refine List.find?_eq_none.mpr ?_
        intro a ha
        have := List.of_mem_filter ha
        simpa using this
      rw [hnone]
      rfl
    · simp only [get_progress_events, Worker.on_cancel_observed, delete_job]
      rw [filter_filter_contra]
      rfl
    · simp only [get_logs, Worker.on_cancel_observed, delete_job]
      rw [filter_filter_contra]
      rfl
    · intro k hk
      simp only [get_job, Worker.on_cancel_observed, delete_job]
      refine find?_filter_of_imp _ _ ?_ t.jobs
      intro a ha
      have : a.job_id = k := by simpa using ha
      simp [this, hk]

/-- C1 witness: the amended theorem at the concrete store, on the running
job with the cancel endpoint at time 50. -/
theorem c1_cancel_observed_deletes_job_witness :
    get_job exStore "job-running" = some exRunningJob ∧
    Api.isTerminal exRunningJob.status = false ∧
    (∃ s2 w2,
      Api.cancel_endpoint exStore exWorkerProcessing "job-running" 50 =
        Except.ok (s2, w2) ∧
      get_job s2 "job-running" =
        some { exRunningJob with status := "cancelled",
                                 message := some "Cancelled by user",
                                 completed_at := some 50 }) :=
  ⟨by decide, by decide,
   (c1_cancel_observed_deletes_job exStore exWorkerProcessing "job-running" 50
     exRunningJob (by decide) (by decide)).1⟩

/-- C3: The claim is right and the code is wrong. The payload stored by
`BackgroundWorker.submit_job` (and hence returned by
`GET /jobs/{id}/payload`) carries the internal field name `model_settings`
instead of the wire name `model_config` the user sent — the repository's
own test `test_payload_resubmit_field_names_match_api_contract` asserts
`model_config` must be present. Resubmitting the stored payload does still
succeed because `populate_by_name=True` makes the internal name
acceptable on intake. -/
theorem c3_stored_payload_field_names :
    Api.runRequestDumpKeys.contains "model_config" = false ∧
    Api.runRequestDumpKeys.contains "model_settings" = true ∧
    Api.runRequestModelKeyAccepted Api.runRequestDumpKeys = true := by
  decide

/-- C2 counterexample: `update_job` freezes nothing. On a store holding a
job with terminal status `success`, a subsequent `update_job` changes its
status, message, completed_at and result, refuting the claim at this
concrete input. -/
theorem c2_counterexample :
    (get_job exStore "job-success").map Job.status = some "success" ∧
    (let s2 := update_job exStore "job-success"
        { status := some "running", message := some "overwritten",
          completed_at := some 99, result := some [] }
     (get_job s2 "job-success").map Job.status = some "running" ∧
     (get_job s2 "job-success").map Job.message = some (some "overwritten") ∧
     (get_job s2 "job-success").map Job.completed_at = some (some 99) ∧
     (get_job s2 "job-success").map Job.result = some (some [])) := by
  decide

/-- C2 (amended): `update_job` is an unconditional partial update — for
every existing job, each supplied field is applied regardless of the
current status, so the status, completed_at, result and message of a job
whose status is in {success, failed, cancelled} can all be changed by a
subsequent `update_job` call; the store enforces no terminal freeze. -/
theorem c2_update_job_not_frozen (s : StoreState) (id : String) (u : JobUpdate)
    (j : Job) (h : get_job s id = some j) :
    get_job (update_job s id u) id = some (applyUpdate j u) ∧
    (∀ v, u.status = some v → (applyUpdate j u).status = v) ∧
    (∀ t, u.completed_at = some t → (applyUpdate j u).completed_at = some t) ∧
    (∀ m, u.message = some m → (applyUpdate j u).message = some m) ∧
    (∀ r, u.result = some r → (applyUpdate j u).result = some r) := by
  refine ⟨?_, ?_, ?_, ?_, ?_⟩
  · rw [get_job_update_job, h]
    rfl
  · intro v hv; simp [applyUpdate, hv]
  · intro t ht; simp [applyUpdate, ht]
  · intro m hm; simp [applyUpdate, hm]
  · intro r hr; simp [applyUpdate, hr]

/-- C2 witness: the amended theorem applied to the concrete store at a
terminal job. -/
theorem c2_update_job_not_frozen_witness :
    get_job exStore "job-success" = some exSuccessJob ∧
    get_job (update_job exStore "job-success" { status := some "running" })
        "job-success" =
      some (applyUpdate exSuccessJob { status := some "running" }) :=
  ⟨by decide,
   (c2_update_job_not_frozen exStore "job-success" { status := some "running" }
     exSuccessJob (by decide)).1⟩

/-- C7: `recover_orphaned_jobs()` rewrites exactly the running/validating
rows to `failed` with message "Job interrupted by service restart" and
`completed_at = now`, leaves every other job (and all progress events and
logs) unchanged, and returns the number of rewritten rows. -/
theorem c7_recover_orphaned_jobs (s : StoreState) (now : Nat) :
    (∀ id j, get_job s id = some j →
      get_job (recover_orphaned_jobs s now).1 id =
        some (if isOrphan j then
                { j with status := "failed",
                         message := some "Job interrupted by service restart",
                         completed_at := some now }
              else j)) ∧
    (recover_orphaned_jobs s now).2 =
      (s.jobs.filter (fun j => j.status == "running" || j.status == "validating")).length ∧
    (recover_orphaned_jobs s now).1.progress = s.progress ∧
    (recover_orphaned_jobs s now).1.logs = s.logs := by
  refine ⟨?_, rfl, rfl, rfl⟩
  intro id j h
  have hpres : ∀ a : Job,
      ((if isOrphan a then
          { a with status := "failed",
                   message := some "Job interrupted by service restart",
                   completed_at := some now }
        else a).job_id == id) = (a.job_id == id) := by
    intro a
    by_cases ha : isOrphan a <;> simp [ha]
  simp only [recover_orphaned_jobs, get_job] at h ⊢
  rw [find?_map_pres _ _ hpres, h]
  rfl

/-- C7 witness: the theorem applied to the concrete store; the running job
is rewritten and the terminal job is untouched. -/
theorem c7_recover_orphaned_jobs_witness :
    get_job exStore "job-running" = some exRunningJob ∧
    get_job (recover_orphaned_jobs exStore 42).1 "job-running" =
      some (if isOrphan exRunningJob then
              { exRunningJob with
                  status := "failed",
                  message := some "Job interrupted by service restart",
                  completed_at := some 42 }
            else exRunningJob) :=
  ⟨by decide,
   (c7_recover_orphaned_jobs exStore 42).1 "job-running" exRunningJob (by decide)⟩

/-- C6: in every API response carrying job status, `estimated_remaining`
is the `tqdm_remaining` value of `latest_metrics` formatted HH:MM:SS when
the status is non-terminal and the value is a non-negative number, and is
null for every terminal status even when `tqdm_remaining` is present. -/
theorem c6_estimated_remaining (st : String) (m : JDict) :
    (Api.isTerminal st = true → Api.estimated_remaining_field st m = none) ∧
    (Api.isTerminal st = false →
      ∀ v : ℚ, dictLookup m "tqdm_remaining" = some (MetricVal.num v) → 0 ≤ v →
        Api.estimated_remaining_field st m = some (Api.seconds_to_hhmmss v)) := by
  constructor
  · intro h
    simp [Api.estimated_remaining_field, isTerminal_status_to_job_status, h]
  · intro h v hv hnn
    simp [Api.estimated_remaining_field, isTerminal_status_to_job_status, h,
      Api.extract_estimated_remaining, hv, hnn]

/-- C6 witness: a running job with `tqdm_remaining = 75` renders
"00:01:15"; a successful job with the same metrics renders null. -/
theorem c6_estimated_remaining_witness :
    Api.isTerminal "running" = false ∧
    dictLookup [("tqdm_remaining", MetricVal.num 75)] "tqdm_remaining" =
      some (MetricVal.num 75) ∧
    (0 : ℚ) ≤ 75 ∧
    Api.estimated_remaining_field "running" [("tqdm_remaining", MetricVal.num 75)] =
      some (Api.seconds_to_hhmmss 75) ∧
    Api.seconds_to_hhmmss 75 = "00:01:15" ∧
    Api.isTerminal "success" = true ∧
    Api.estimated_remaining_field "success" [("tqdm_remaining", MetricVal.num 75)] = none :=
  ⟨by decide, by decide, by decide,
   (c6_estimated_remaining "running" [("tqdm_remaining", MetricVal.num 75)]).2
     (by decide) 75 (by decide) (by decide),
   by decide, by decide,
   (c6_estimated_remaining "success" [("tqdm_remaining", MetricVal.num 75)]).1
     (by decide)⟩

/-- C9 counterexample: a job being processed whose cancel flag is set;
`enqueue_job` on the same id replaces the set flag with a fresh unset one
while the job is still tracked by the pool, refuting set-once semantics at
this input. -/
theorem c9_counterexample :
    exWorkerProcessing.cancel "job-running" = some true ∧
    "job-running" ∈ exWorkerProcessing.processing ∧
    (Worker.enqueue_job exWorkerProcessing "job-running").cancel "job-running" =
      some false ∧
    "job-running" ∈ (Worker.enqueue_job exWorkerProcessing "job-running").processing := by
  decide

/-- C9 (amended): cancel flags are not set-once. `enqueue_job` — and
therefore `submit_job` — unconditionally installs a fresh UNSET flag for
the id, replacing any existing set flag; `cancel_job` sets the flag of a
non-pending tracked job, and for a still-pending job removes the queue
entry and discards the flag in the same step. A set flag therefore
persists only while no re-enqueue of the same id happens before the
terminal write. -/
theorem c9_cancel_flag_not_set_once (w : Worker.WorkerState) (id : String) :
    (Worker.enqueue_job w id).cancel id = some false ∧
    (∀ (s : StoreState) (p : JDict),
      ((Worker.submit_job s w id p).2).cancel id = some false) ∧
    ((w.cancel id).isSome = true → id ∉ w.pending →
      ((Worker.cancel_job w id).2).cancel id = some true) ∧
    (id ∈ w.pending →
      (Worker.cancel_job w id).1 = true ∧
      ((Worker.cancel_job w id).2).cancel id = none) := by
  have henq : (Worker.enqueue_job w id).cancel id = some false := by
    unfold Worker.enqueue_job
    split <;> simp
  refine ⟨henq, fun s p => henq, ?_, ?_⟩
  · intro hsome hpend
    rcases Option.isSome_iff_exists.mp hsome with ⟨b, hb⟩
    simp [Worker.cancel_job, hpend, hb]
  · intro hpend
    simp [Worker.cancel_job, hpend]

/-- C9 witness: the amended theorem on the processing state with a set
flag and on the pending state. -/
theorem c9_cancel_flag_not_set_once_witness :
    (Worker.enqueue_job exWorkerProcessing "job-running").cancel "job-running" =
      some false ∧
    (exWorkerProcessing.cancel "job-running").isSome = true ∧
    "job-running" ∉ exWorkerProcessing.pending ∧
    ((Worker.cancel_job exWorkerProcessing "job-running").2).cancel "job-running" =
      some true ∧
    "job-pending" ∈ exWorkerPending.pending ∧
    (Worker.cancel_job exWorkerPending "job-pending").1 = true ∧
    ((Worker.cancel_job exWorkerPending "job-pending").2).cancel "job-pending" = none :=
  ⟨(c9_cancel_flag_not_set_once exWorkerProcessing "job-running").1,
   by decide, by decide,
   (c9_cancel_flag_not_set_once exWorkerProcessing "job-running").2.2.1
     (by decide) (by decide),
   by decide,
   ((c9_cancel_flag_not_set_once exWorkerPending "job-pending").2.2.2
     (by decide)).1,
   ((c9_cancel_flag_not_set_once exWorkerPending "job-pending").2.2.2
     (by decide)).2⟩

/-- C10: the scheduler-state invariant — no duplicate ids in the pending
list and no id simultaneously pending and processing — is preserved by
every pool operation: `enqueue_job`, `submit_job`, `_get_next_job`,
`_mark_job_done`, `cancel_job` and `stop`. -/
theorem c10_scheduler_invariant_preserved (w : Worker.WorkerState) (id : String)
    (s : StoreState) (payload : JDict) (h : SchedInv w) :
    SchedInv (Worker.enqueue_job w id) ∧
    SchedInv ((Worker.submit_job s w id payload).2) ∧
    SchedInv (Worker.get_next_job w).2 ∧
    SchedInv (Worker.mark_job_done w id) ∧
    SchedInv ((Worker.cancel_job w id).2) ∧
    SchedInv (Worker.stopWorker w) := by
  obtain ⟨hnd, hdisj⟩ := h
  have henq : SchedInv (Worker.enqueue_job w id) := by
    unfold Worker.enqueue_job
    by_cases hc : id ∈ w.pending ∨ id ∈ w.processing
    · simp only [hc, if_true]
      exact ⟨hnd, hdisj⟩
    · push_neg at hc
      simp only [hc, if_false]
      refine ⟨?_, ?_⟩
      · show (w.pending ++ [id]).Nodup
        simp only [List.nodup_append, List.nodup_cons, List.nodup_nil]
        exact ⟨hnd, ⟨by simp, by simp⟩, by
          intro a ha hb
          rcases List.mem_singleton.mp hb with rfl
          exact hc.1 ha⟩
      · show ∀ x ∈ w.pending ++ [id], x ∉ w.processing
        intro x hx
        rcases List.mem_append.mp hx with hx | hx
        · exact hdisj x hx
        · rcases List.mem_singleton.mp hx with rfl
          exact hc.2
  refine ⟨henq, henq, ?_, ?_, ?_, ?_⟩
  · unfold Worker.get_next_job
    cases hp : w.pending with
    | nil =>
      show SchedInv w
      refine ⟨?_, ?_⟩
      · rw [hp]; exact List.nodup_nil
      · intro x hx
        rw [hp] at hx
        exact absurd hx (List.not_mem_nil x)
    | cons hd tl =>
      rw [hp] at hnd hdisj
      refine ⟨(List.nodup_cons.mp hnd).2, ?_⟩
      intro x hx hmem
      rcases Finset.mem_insert.mp hmem with hx2 | hx2
      · exact (List.nodup_cons.mp hnd).1 (hx2 ▸ hx)
      · exact hdisj x (List.mem_cons_of_mem hd hx) hx2
  · refine ⟨hnd, ?_⟩
    intro x hx hmem
    exact hdisj x hx (Finset.mem_of_mem_erase hmem)
  · unfold Worker.cancel_job
    by_cases hp : id ∈ w.pending
    · simp only [hp, if_true]
      refine ⟨hnd.erase id, ?_⟩
      intro x hx
      exact hdisj x (List.mem_of_mem_erase hx)
    · simp only [hp, if_false]
      exact ⟨hnd, hdisj⟩
  · exact ⟨List.nodup_nil, by intro x hx; exact absurd hx (List.not_mem_nil x)⟩

theorem foldl_enqueue_pending :
    ∀ (ids : List String) (w : Worker.WorkerState), ids.Nodup →
      (∀ i ∈ ids, i ∉ w.pending ∧ i ∉ w.processing) →
      (ids.foldl Worker.enqueue_job w).pending = w.pending ++ ids := by
  intro ids
  induction ids with
  | nil => intro w _ _; simp
  | cons i rest ih =>
    intro w hnd hfresh
    have hi := hfresh i (List.mem_cons_self i rest)
    have hcond : ¬ (i ∈ w.pending ∨ i ∈ w.processing) := by
      intro hc
      rcases hc with hc | hc
      · exact hi.1 hc
      · exact hi.2 hc
    have hstep : Worker.enqueue_job w i =
        { w with pending := w.pending ++ [i],
                 cancel := fun k => if k = i then some false else w.cancel k } := by
      unfold Worker.enqueue_job
      rw [if_neg hcond]
    rw [List.foldl_cons, hstep]
    have hnd2 := (List.nodup_cons.mp hnd).2
    have hninr := (List.nodup_cons.mp hnd).1
    rw [ih _ hnd2 ?_]
    · simp
    · intro x hx
      constructor
      · intro hmem
        rcases List.mem_append.mp hmem with hmem | hmem
        · exact (hfresh x (List.mem_cons_of_mem i hx)).1 hmem
        · rcases List.mem_singleton.mp hmem with rfl
          exact hninr hx
      · exact (hfresh x (List.mem_cons_of_mem i hx)).2

/-- C4: the spec-modelled `recover_pending_jobs()` returns exactly the ids
of the stored pending jobs, ordered oldest first (by `created_at`), and a
freshly created worker pool pre-enqueues exactly these ids in order
(`get_worker` with `pending_job_ids`, engine.py lines 688-704). The Nodup
hypothesis is the primary-key uniqueness of stored job ids. -/
theorem c4_recover_pending_jobs (s : StoreState) :
    (∃ js : List Job,
       SpecModel.recover_pending_jobs s = js.map (fun j => j.job_id) ∧
       js.Pairwise (fun a b => a.created_at ≤ b.created_at) ∧
       (∀ j : Job, j ∈ js ↔ j ∈ s.jobs ∧ j.status = "pending")) ∧
    ((SpecModel.recover_pending_jobs s).Nodup →
      (Worker.getWorkerFresh (SpecModel.recover_pending_jobs s)).pending =
        SpecModel.recover_pending_jobs s) := by
  constructor
  · refine ⟨(sortOn (fun j : Job => j.created_at) s.jobs).filter
      (fun j : Job => j.status == "pending"), rfl, ?_, ?_⟩
    · exact (sortOn_sorted (fun j : Job => j.created_at) s.jobs).sublist
        (List.filter_sublist _)
    · intro j
      rw [List.mem_filter, mem_sortOn]
      simp [beq_iff_eq]
  · intro hnd
    unfold Worker.getWorkerFresh
    rw [foldl_enqueue_pending _ _ hnd ?_]
    · simp [Worker.freshWorker]
    · intro i _
      exact ⟨List.not_mem_nil i, Finset.not_mem_empty i⟩

/-- C4 witness: on the concrete store the two pending jobs come back
oldest first and a fresh pool enqueues exactly them. -/
theorem c4_recover_pending_jobs_witness :
    SpecModel.recover_pending_jobs exStore = ["job-old-pending", "job-pending"] ∧
    (SpecModel.recover_pending_jobs exStore).Nodup ∧
    (Worker.getWorkerFresh (SpecModel.recover_pending_jobs exStore)).pending =
      SpecModel.recover_pending_jobs exStore :=
  ⟨by decide, by decide,
   (c4_recover_pending_jobs exStore).2 (by decide)⟩

/-- C5: the claim holds of the spec-modelled `get_logs` / `get_log_count`
(the `LocalDBJobStore` under src/ does not accept the limit/offset/level
arguments the Protocol and the API handler use): the level-filtered count
equals the length of the unpaginated level-filtered listing; an offset at
or past the end returns the empty list; the listing is chronologically
ordered; and an entry is listed iff it belongs to the job and its level
matches case-insensitively. -/
theorem c5_get_logs_filter_pagination (s : StoreState) (id : String) :
    (∀ L : Option String,
      SpecModel.get_log_count_spec s id L =
        (SpecModel.get_logs_spec s id none 0 L).length) ∧
    (∀ (lim : Option Nat) (off : Nat) (L : Option String),
      SpecModel.get_log_count_spec s id L ≤ off →
      SpecModel.get_logs_spec s id lim off L = []) ∧
    (∀ L : Option String,
      (SpecModel.get_logs_spec s id none 0 L).Pairwise (fun a b => a.ts ≤ b.ts)) ∧
    (∀ (L : String) (e : LogEntry),
      e ∈ SpecModel.get_logs_spec s id none 0 (some L) ↔
        e ∈ s.logs ∧ e.jobId = id ∧ upperStr e.level = upperStr L) := by
  have hperm : ∀ L : Option String,
      (match L with
       | none => sortOn (fun e : LogEntry => e.ts)
           (s.logs.filter (fun e : LogEntry => e.jobId == id))
       | some L =>
         (sortOn (fun e : LogEntry => e.ts)
             (s.logs.filter (fun e : LogEntry => e.jobId == id))).filter
           (fun e : LogEntry => upperStr e.level == upperStr L)).length =
      SpecModel.get_log_count_spec s id L := by
    intro L
    cases L with
    | none =>
      simp only [SpecModel.get_log_count_spec]
      exact (sortOn_perm _ _).length_eq
    | some L =>
      simp only [SpecModel.get_log_count_spec]
      exact ((sortOn_perm (fun e : LogEntry => e.ts)
        (s.logs.filter (fun e : LogEntry => e.jobId == id))).filter _).length_eq
  refine ⟨?_, ?_, ?_, ?_⟩
  · intro L
    rw [← hperm L]
    cases L <;> simp [SpecModel.get_logs_spec]
  · intro lim off L hoff
    rw [← hperm L] at hoff
    unfold SpecModel.get_logs_spec
    cases L with
    | none =>
      simp only at hoff ⊢
      rw [List.drop_eq_nil_iff.mpr hoff]
      cases lim <;> simp
    | some L =>
      simp only at hoff ⊢
      rw [List.drop_eq_nil_iff.mpr hoff]
      cases lim <;> simp
  · intro L
    cases L with
    | none =>
      simp only [SpecModel.get_logs_spec, List.drop_zero]
      exact sortOn_sorted _ _
    | some L =>
      simp only [SpecModel.get_logs_spec, List.drop_zero]
      exact (sortOn_sorted (fun e : LogEntry => e.ts) _).sublist (List.filter_sublist _)
  · intro L e
    simp only [SpecModel.get_logs_spec, List.drop_zero]
    rw [List.mem_filter, mem_sortOn, List.mem_filter]
    simp [beq_iff_eq, and_assoc]

/-- C5 witness: on the concrete store, level filtering is case-insensitive
(filter "error" returns exactly the ERROR entry) and an offset past the
end returns the empty list. -/
theorem c5_get_logs_filter_pagination_witness :
    SpecModel.get_log_count_spec exStore "job-running" (some "ERROR") ≤ 5 ∧
    SpecModel.get_logs_spec exStore "job-running" none 5 (some "ERROR") = [] ∧
    SpecModel.get_logs_spec exStore "job-running" none 0 (some "error") =
      [⟨"job-running", 5, "ERROR", "dspy", "API call failed"⟩] :=
  ⟨by decide,
   (c5_get_logs_filter_pagination exStore "job-running").2.1 none 5 (some "ERROR")
     (by decide),
   by decide⟩

theorem record_progress_count_le (s : StoreState) (i id : String)
    (msg : Option String) (mx : JDict) (now : Nat)
    (h : get_progress_count s id ≤ MAX_PROGRESS_EVENTS) :
    get_progress_count (record_progress s i msg mx now) id ≤ MAX_PROGRESS_EVENTS := by
  by_cases hii : i = id
  · subst hii
    have hfil : ((s.progress ++ [(⟨i, now, msg, mx⟩ : PEvent)]).filter (fun e : PEvent => e.jobId == i)) =
        s.progress.filter (fun e : PEvent => e.jobId == i) ++ [(⟨i, now, msg, mx⟩ : PEvent)] := by
      simp [List.filter_append]
    simp only [get_progress_count, record_progress] at h ⊢
    by_cases hc : MAX_PROGRESS_EVENTS <
        ((s.progress ++ [(⟨i, now, msg, mx⟩ : PEvent)]).filter (fun e : PEvent => e.jobId == i)).length
    · rw [if_pos hc]
      rw [hfil] at hc
      simp only [List.length_append, List.length_cons, List.length_nil] at hc
      unfold removeOldestEvent
      cases hmin : minTs (((s.progress ++ [(⟨i, now, msg, mx⟩ : PEvent)]).filter
          (fun e : PEvent => e.jobId == i)).map (fun e : PEvent => e.ts)) with
      | none =>
        exfalso
        have hne := (minTs_eq_none _).mp hmin
        rw [hfil] at hne
        simp at hne
      | some m =>
        have hmem := minTs_mem _ m hmin
        rcases List.mem_map.mp hmem with ⟨e0, he0, hts0⟩
        have hpe0 : (e0.jobId == i) = true := (List.mem_filter.mp he0).2
        have hpr0 : (e0.jobId == i && e0.ts == m) = true := by
          rw [hpe0, hts0]
          simp
        rw [filter_eraseP_comm (fun e : PEvent => e.jobId == i && e.ts == m)
          (fun e : PEvent => e.jobId == i) (fun a ha => (Bool.and_eq_true _ _ |>.mp ha).1) _]
        rw [List.length_eraseP_of_mem he0 hpr0]
        rw [hfil]
        simp only [List.length_append, List.length_cons, List.length_nil]
        omega
    · rw [if_neg hc]
      rw [hfil] at hc
      simp only [List.length_append, List.length_cons, List.length_nil] at hc
      rw [hfil]
      simp only [List.length_append, List.length_cons, List.length_nil]
      omega
  · have hfails : ((⟨i, now, msg, mx⟩ : PEvent).jobId == id) = false := by
      simp [hii]
    have hfil : ((s.progress ++ [(⟨i, now, msg, mx⟩ : PEvent)]).filter (fun e : PEvent => e.jobId == id)) =
        s.progress.filter (fun e : PEvent => e.jobId == id) := by
      simp [List.filter_append, hfails]
    simp only [get_progress_count, record_progress] at h ⊢
    by_cases hc : MAX_PROGRESS_EVENTS <
        ((s.progress ++ [(⟨i, now, msg, mx⟩ : PEvent)]).filter (fun e : PEvent => e.jobId == i)).length
    · rw [if_pos hc]
      unfold removeOldestEvent
      cases hmin : minTs (((s.progress ++ [(⟨i, now, msg, mx⟩ : PEvent)]).filter
          (fun e : PEvent => e.jobId == i)).map (fun e : PEvent => e.ts)) with
      | none =>
        rw [hfil]
        exact h
      | some m =>
        rw [filter_eraseP_of_disjoint (fun e : PEvent => e.jobId == i && e.ts == m)
          (fun e : PEvent => e.jobId == id) ?_ _]
        · rw [hfil]
          exact h
        · intro a ha
          have hai : a.jobId = i := by
            have := (Bool.and_eq_true _ _ |>.mp ha).1
            exact beq_iff_eq.mp this
          simp [hai, hii]
    · rw [if_neg hc]
      rw [hfil]
      exact h

/-- C8: (1) the per-job progress-event cap is an invariant: starting from
at most `MAX_PROGRESS_EVENTS` stored events for a job, no sequence of
`record_progress` calls (on any jobs) can push that job's stored event
count above the cap; (2) when an insertion overflows the cap, the evicted
row is one with the minimal timestamp among the job's rows including the
new one — the oldest is deleted in the same transaction. -/
theorem c8_progress_cap :
    (∀ (s : StoreState) (id : String)
        (calls : List (String × Option String × JDict × Nat)),
      get_progress_count s id ≤ MAX_PROGRESS_EVENTS →
      get_progress_count (applyProgressCalls s calls) id ≤ MAX_PROGRESS_EVENTS) ∧
    (∀ (s : StoreState) (id : String) (msg : Option String) (mx : JDict) (now : Nat),
      MAX_PROGRESS_EVENTS ≤ (eventRowsFor s id).length →
      ∃ (e0 : PEvent) (l₁ l₂ : List PEvent),
        eventRowsFor s id ++ [(⟨id, now, msg, mx⟩ : PEvent)] = l₁ ++ e0 :: l₂ ∧
        eventRowsFor (record_progress s id msg mx now) id = l₁ ++ l₂ ∧
        (∀ e ∈ eventRowsFor s id ++ [(⟨id, now, msg, mx⟩ : PEvent)], e0.ts ≤ e.ts)) := by
  constructor
  · intro s id calls
    induction calls generalizing s with
    | nil => intro h; exact h
    | cons c rest ih =>
      intro h
      exact ih _ (record_progress_count_le s c.1 id c.2.1 c.2.2.1 c.2.2.2 h)
  · intro s id msg mx now hfull
    have hfil : ((s.progress ++ [(⟨id, now, msg, mx⟩ : PEvent)]).filter (fun e : PEvent => e.jobId == id)) =
        eventRowsFor s id ++ [(⟨id, now, msg, mx⟩ : PEvent)] := by
      simp [eventRowsFor, List.filter_append]
    have hcnt : MAX_PROGRESS_EVENTS <
        ((s.progress ++ [(⟨id, now, msg, mx⟩ : PEvent)]).filter (fun e : PEvent => e.jobId == id)).length := by
      rw [hfil]
      simp only [List.length_append, List.length_cons, List.length_nil]
      omega
    cases hmin : minTs (((s.progress ++ [(⟨id, now, msg, mx⟩ : PEvent)]).filter
        (fun e : PEvent => e.jobId == id)).map (fun e : PEvent => e.ts)) with
    | none =>
      exfalso
      have hne := (minTs_eq_none _).mp hmin
      rw [hfil] at hne
      simp at hne
    | some m =>
      have hmem := minTs_mem _ m hmin
      rcases List.mem_map.mp hmem with ⟨ew, hew, htsw⟩
      have hpew : (ew.jobId == id) = true := (List.mem_filter.mp hew).2
      have hprw : (ew.jobId == id && ew.ts == m) = true := by
        rw [hpew, htsw]
        simp
      rw [hfil] at hew
      rcases @List.exists_of_eraseP PEvent
        (fun e : PEvent => e.jobId == id && e.ts == m) _ _ hew hprw with
        ⟨b, l₁, l₂, _, hb, hdecomp, herase⟩
      refine ⟨b, l₁, l₂, hdecomp, ?_, ?_⟩
      · simp only [eventRowsFor, record_progress]
        rw [if_pos hcnt]
        unfold removeOldestEvent
        rw [hmin]
        rw [filter_eraseP_comm (fun e : PEvent => e.jobId == id && e.ts == m)
          (fun e : PEvent => e.jobId == id) (fun a ha => (Bool.and_eq_true _ _ |>.mp ha).1) _]
        rw [hfil]
        exact herase
      · intro e he
        have hbm : b.ts = m := beq_iff_eq.mp (Bool.and_eq_true _ _ |>.mp hb).2
        have hle := minTs_le _ m hmin e.ts (by
          rw [hfil]
          exact List.mem_map_of_mem (fun e : PEvent => e.ts) he)
        rw [hbm]
        exact hle

/-- C8 witness: the cap theorem on the concrete store (one event, one
call), and the eviction theorem on a store holding exactly
`MAX_PROGRESS_EVENTS` events for one job. -/
theorem c8_progress_cap_witness :
    get_progress_count exStore "job-running" ≤ MAX_PROGRESS_EVENTS ∧
    get_progress_count
        (applyProgressCalls exStore [("job-running", none, [], 10)])
        "job-running" ≤ MAX_PROGRESS_EVENTS ∧
    MAX_PROGRESS_EVENTS ≤ (eventRowsFor exFullStore "job-full").length ∧
    (∃ (e0 : PEvent) (l₁ l₂ : List PEvent),
      eventRowsFor exFullStore "job-full" ++ [⟨"job-full", 9999, none, []⟩] =
        l₁ ++ e0 :: l₂ ∧
      eventRowsFor (record_progress exFullStore "job-full" none [] 9999) "job-full" =
        l₁ ++ l₂ ∧
      (∀ e ∈ eventRowsFor exFullStore "job-full" ++ [⟨"job-full", 9999, none, []⟩],
        e0.ts ≤ e.ts)) := by
  have hrows : (eventRowsFor exFullStore "job-full").length = MAX_PROGRESS_EVENTS := by
    have hall : ∀ e ∈ exFullStore.progress, (e.jobId == "job-full") = true := by
      intro e he
      simp only [exFullStore] at he
      rcases List.mem_map.mp he with ⟨ix, _, rfl⟩
      rfl
    unfold eventRowsFor
    rw [List.filter_eq_self.mpr hall]
    simp [exFullStore]
  refine ⟨by decide, (c8_progress_cap).1 exStore "job-running"
      [("job-running", none, [], 10)] (by decide), le_of_eq hrows.symm,
    (c8_progress_cap).2 exFullStore "job-full" none [] 9999 (le_of_eq hrows.symm)⟩

/-- C10 witness: the invariant theorem applied to the fresh worker state. -/
theorem c10_scheduler_invariant_preserved_witness :
    SchedInv Worker.freshWorker ∧
    SchedInv (Worker.enqueue_job Worker.freshWorker "job-a") :=
  ⟨⟨List.nodup_nil, by intro x hx; exact absurd hx (List.not_mem_nil x)⟩,
   (c10_scheduler_invariant_preserved Worker.freshWorker "job-a"
     { jobs := [], progress := [], logs := [] } []
     ⟨List.nodup_nil, by intro x hx; exact absurd hx (List.not_mem_nil x)⟩).1⟩

end Dspy
